import Mathlib

/-!
Shallow embedding of the menu-extraction engine of `src/scraper/menu_scraper.py`
(repository GuitarMusashi616/ValueMenu).

Python strings are modelled as `List Char`; the parsed HTML document
(BeautifulSoup tree) is modelled as a first-child / next-sibling `Forest`
whose element nodes carry a tag, a list of class tokens and a child forest.
Every definition below is translated from the source file; line numbers in
the doc comments refer to `src/scraper/menu_scraper.py`.
-/

/-- Characters removed by Python `str.strip()` with no argument
(ASCII whitespace: space, tab, newline, carriage return, vertical tab, form feed). -/
def isPySpace (c : Char) : Bool :=
  c = ' ' || c = '\t' || c = '\n' || c = '\r' || c = '\x0b' || c = '\x0c'

/-- Characters removed by `str.strip(' -')` (space and hyphen). -/
def isSpHy (c : Char) : Bool :=
  c = ' ' || c = '-'

/-- Strip characters satisfying `p` from both ends of a string. -/
def stripBoth (p : Char → Bool) (s : List Char) : List Char :=
  ((s.dropWhile p).reverse.dropWhile p).reverse

/-- Python `str.strip()`. -/
def pyStrip (s : List Char) : List Char := stripBoth isPySpace s

/-- Python `str.strip(' -')`. -/
def stripSpHy (s : List Char) : List Char := stripBoth isSpHy s

/-- Python `str.lower()` (ASCII case folding suffices for the inputs involved). -/
def lowerL (s : List Char) : List Char := s.map Char.toLower

/-- One attempt of the regex `\$\d+(?:\.\d+)?` anchored at the start of `s`:
a dollar sign, a maximal nonempty digit run, then optionally a dot followed
by a maximal nonempty digit run (the optional group is skipped when the dot
is not followed by a digit).  Returns the matched token. -/
def matchPriceAt (s : List Char) : Option (List Char) :=
  match s with
  | [] => none
  | c :: rest =>
    if c = '$' then
      if (rest.takeWhile Char.isDigit).isEmpty then none
      else
        match rest.drop (rest.takeWhile Char.isDigit).length with
        | d :: r3 =>
          if d = '.' then
            if (r3.takeWhile Char.isDigit).isEmpty then
              some ('$' :: rest.takeWhile Char.isDigit)
            else
              some ('$' :: rest.takeWhile Char.isDigit ++ '.' :: r3.takeWhile Char.isDigit)
          else some ('$' :: rest.takeWhile Char.isDigit)
        | [] => some ('$' :: rest.takeWhile Char.isDigit)
    else none

/-- Scan left to right for the first position where `matchPriceAt` succeeds,
carrying the index of the current position. -/
def searchPriceAux : List Char → Nat → Option (Nat × List Char)
  | [], _ => none
  | c :: rest, i =>
    match matchPriceAt (c :: rest) with
    | some m => some (i, m)
    | none => searchPriceAux rest (i + 1)

/-- Python `re.search(r'\$\d+(?:\.\d+)?', text)`: start index and matched token
of the leftmost match, if any. -/
def searchPrice (s : List Char) : Option (Nat × List Char) :=
  searchPriceAux s 0

/-- Fueled worker for `stripPrices`; the fuel is an upper bound on the number
of scan steps, each of which consumes at least one character. -/
def stripPricesFuel : Nat → List Char → List Char
  | 0, s => s
  | _ + 1, [] => []
  | fuel + 1, c :: rest =>
    match matchPriceAt (c :: rest) with
    | some m => stripPricesFuel fuel ((c :: rest).drop m.length)
    | none => c :: stripPricesFuel fuel rest

/-- Python `re.sub(r'\$\d+(?:\.\d+)?', '', s)`: delete every non-overlapping
leftmost match of the currency regex. -/
def stripPrices (s : List Char) : List Char :=
  stripPricesFuel (s.length + 1) s

/-- Split off the part of `s` before the first occurrence of `sep`, returning
it together with the remainder after that occurrence; `none` when `sep` does
not occur. -/
def splitFirst (sep : List Char) : List Char → Option (List Char × List Char)
  | [] => none
  | c :: rest =>
    if sep.isPrefixOf (c :: rest) then some ([], (c :: rest).drop sep.length)
    else
      match splitFirst sep rest with
      | some (pre, post) => some (c :: pre, post)
      | none => none

/-- Fueled worker for `splitOnSub`. -/
def splitOnSubFuel (sep : List Char) : Nat → List Char → List (List Char)
  | 0, s => [s]
  | fuel + 1, s =>
    match splitFirst sep s with
    | none => [s]
    | some (pre, post) => pre :: splitOnSubFuel sep fuel post

/-- Python `s.split(sep)` for a nonempty separator: list of the pieces between
the non-overlapping occurrences of `sep`, always nonempty. -/
def splitOnSub (sep s : List Char) : List (List Char) :=
  splitOnSubFuel sep (s.length + 1) s

/-- The currency-token grammar actually enforced by the code's regex when it
must cover a whole string: `$` digit+ (`.` digit+)? — the fraction, when
present, has one or MORE digits. -/
def isCurrencyTokenCode (s : List Char) : Bool :=
  match s with
  | c :: rest =>
    if c = '$' then
      if (rest.takeWhile Char.isDigit).isEmpty then false
      else
        match rest.drop (rest.takeWhile Char.isDigit).length with
        | [] => true
        | d :: fs => d = '.' && !fs.isEmpty && fs.all Char.isDigit
    else false
  | [] => false

/-- The currency-token grammar as written in the specification: `$` digit+
(`.` digit digit)? — a fraction of EXACTLY two digits when present. -/
def isCurrencyTokenSpec (s : List Char) : Bool :=
  match s with
  | c :: rest =>
    if c = '$' then
      if (rest.takeWhile Char.isDigit).isEmpty then false
      else
        match rest.drop (rest.takeWhile Char.isDigit).length with
        | [] => true
        | d :: fs => d = '.' && fs.length = 2 && fs.all Char.isDigit
    else false
  | [] => false

/-- A produced menu record `{name, price, description}`. -/
structure MenuItem where
  name : List Char
  price : List Char
  description : List Char
deriving DecidableEq

/-- Python substring test `needle in hay`: does `needle` occur contiguously
inside `hay`? -/
def containsSub (needle : List Char) : List Char → Bool
  | [] => needle.isEmpty
  | c :: rest => needle.isPrefixOf (c :: rest) || containsSub needle rest

/-- A parsed HTML document fragment in first-child / next-sibling form:
either exhausted, a text node followed by its siblings, or an element node
(tag, class tokens, child forest) followed by its siblings.  Preorder
traversal of a `Forest` is exactly BeautifulSoup's document order. -/
inductive Forest where
  | nil : Forest
  | textN (s : List Char) (rest : Forest) : Forest
  | elemN (tag : List Char) (classes : List (List Char)) (children : Forest) (rest : Forest) : Forest
deriving DecidableEq

/-- An element node as returned by `find_all`: its tag, its class tokens and
the forest of its children. -/
structure Elem where
  tag : List Char
  classes : List (List Char)
  children : Forest
deriving DecidableEq

/-- All text nodes of a forest in document order
(BeautifulSoup `find_all(string=True)`). -/
def textsOf : Forest → List (List Char)
  | .nil => []
  | .textN s r => s :: textsOf r
  | .elemN _ _ ch r => textsOf ch ++ textsOf r

/-- All element nodes of a forest in document order (preorder: an element
precedes its descendants, which precede its later siblings).  This is the
order in which BeautifulSoup `find_all` yields matches. -/
def elemsOf : Forest → List Elem
  | .nil => []
  | .textN _ r => elemsOf r
  | .elemN t c ch r => ⟨t, c, ch⟩ :: (elemsOf ch ++ elemsOf r)

/-- BeautifulSoup `element.get_text()`: concatenation of all descendant text. -/
def getText (e : Elem) : List Char :=
  (textsOf e.children).flatten

def tagDiv : List Char := "div".toList
def tagSection : List Char := "section".toList
def tagSpan : List Char := "span".toList
def tagP : List Char := "p".toList
def kwMenu : List Char := "menu".toList
def kwItem : List Char := "item".toList
def kwDish : List Char := "dish".toList
def kwFood : List Char := "food".toList
def kwMenuitem : List Char := "menuitem".toList
def sepDash : List Char := " - ".toList

/-- The tag list of `item.find(['h1','h2','h3','h4','h5','h6','strong','b'])`
(source line 131). -/
def nameTags : List (List Char) :=
  ["h1".toList, "h2".toList, "h3".toList, "h4".toList, "h5".toList,
   "h6".toList, "strong".toList, "b".toList]

/-- BeautifulSoup class predicate `lambda x: x and (s in x.lower() for s in subs)`:
true when some class token contains one of the (space-free, lowercase)
keywords as a substring of its lowercasing; elements with no class attribute
(empty token list) never match. -/
def classTokenHasAny (subs : List (List Char)) (classes : List (List Char)) : Bool :=
  classes.any (fun cl => subs.any (fun sb => containsSub sb (lowerL cl)))

/-- Source lines 136-139: first text node of the subtree whose strip is
nonempty, stripped. -/
def firstTextName : List (List Char) → Option (List Char)
  | [] => none
  | t :: ts => if (pyStrip t).isEmpty then firstTextName ts else some (pyStrip t)

/-- `extract_name` (source lines 128-141): text of the first descendant
heading/strong/b element, stripped; otherwise the first nonempty text node,
stripped; otherwise `None`. -/
def extract_name (item : Elem) : Option (List Char) :=
  match (elemsOf item.children).find? (fun x => nameTags.contains x.tag) with
  | some el => some (pyStrip (getText el))
  | none => firstTextName (textsOf item.children)

/-- Source lines 146-153: scan the text nodes in document order; on the first
one containing `'$'` whose regex search succeeds, return the match; a
`'$'`-bearing text with no regex match is skipped. -/
def priceScan : List (List Char) → Option (List Char)
  | [] => none
  | t :: ts =>
    if t.contains '$' then
      match searchPrice t with
      | some (_, m) => some m
      | none => priceScan ts
    else priceScan ts

/-- `extract_price` (source lines 143-155). -/
def extract_price (item : Elem) : Option (List Char) :=
  priceScan (textsOf item.children)

/-- `extract_description` (source lines 157-171): full subtree text, stripped,
with every currency token deleted, stripped again; blanked when it equals the
extracted name case-insensitively (and the name is truthy). -/
def extract_description (item : Elem) : List Char :=
  let text_content := pyStrip (getText item)
  let description := pyStrip (stripPrices text_content)
  match extract_name item with
  | some n => if !n.isEmpty && (lowerL description == lowerL n) then [] else description
  | none => description

/-- Worker for the regex `re.search(r'^(.*?)\s*\$', text)`: `acc` holds the
(reversed) characters already committed to the lazy group `(.*?)`.  At each
position we first try to finish the match — skip whitespace (`\s*`, which may
include newlines) and require a `'$'` — and otherwise grow the group by one
character, which `.` forbids to be a newline. -/
def nameScanAux (acc rest : List Char) : Option (List Char) :=
  if (rest.dropWhile isPySpace).head? = some '$' then some acc.reverse
  else
    match rest with
    | [] => none
    | c :: r => if c = '\n' then none else nameScanAux (c :: acc) r

/-- Group 1 of `re.search(r'^(.*?)\s*\$', text)`, when the regex matches. -/
def nameSearch (text : List Char) : Option (List Char) :=
  nameScanAux [] text

/-- The sentinel placeholder record appended at source lines 120-124. -/
def sentinelItem : MenuItem :=
  ⟨"Menu item".toList, "$10.00".toList, "Please check website for current menu".toList⟩

/-- `parse_menu_text` (source lines 272-300): find the first currency token
(reject when none), take the text before it — via the anchored lazy regex —
stripped, as the name, and the text after the match end, stripped, as the
description.  Note: no empty-name rejection and no re-split rule here. -/
def parse_menu_text (text : List Char) : Option MenuItem :=
  match searchPrice text with
  | none => none
  | some (start, price) =>
    match nameSearch text with
    | some g1 =>
      let name := pyStrip g1
      let price_end := start + price.length
      let description := if price_end < text.length then pyStrip (text.drop price_end) else []
      some ⟨name, price, description⟩
    | none => none

/-- Source line 242: `parts = item_text.split(price_match.group(0))` where
`item_text = text.strip()`. -/
def spenardParts (text price : List Char) : List (List Char) :=
  splitOnSub price (pyStrip text)

/-- Source line 243: `name = parts[0].strip(' -')`. -/
def spenardName0 (text price : List Char) : List Char :=
  stripSpHy ((spenardParts text price).headD [])

/-- Source lines 246-248: `description = parts[1].strip(' -')` when a second
piece exists, otherwise the empty string. -/
def spenardDesc0 (text price : List Char) : List Char :=
  match spenardParts text price with
  | _ :: d :: _ => stripSpHy d
  | _ => []

/-- Source lines 250-256, name side: when the description is empty and the
name contains `" - "`, the name is re-split at its occurrences of `" - "`
and the first piece, stripped, becomes the name; otherwise the name is
unchanged. -/
def spenardName1 (text price : List Char) : List Char :=
  if (spenardDesc0 text price).isEmpty && containsSub sepDash (spenardName0 text price) then
    pyStrip ((splitOnSub sepDash (spenardName0 text price)).headD [])
  else spenardName0 text price

/-- Source lines 250-256, description side: when the re-split fires and the
split produced more than one piece, the later pieces are rejoined with
`" - "` and stripped; otherwise the description is unchanged. -/
def spenardDesc1 (text price : List Char) : List Char :=
  if (spenardDesc0 text price).isEmpty && containsSub sepDash (spenardName0 text price) then
    if 1 < (splitOnSub sepDash (spenardName0 text price)).length then
      pyStrip (List.intercalate sepDash ((splitOnSub sepDash (spenardName0 text price)).drop 1))
    else spenardDesc0 text price
  else spenardDesc0 text price

/-- `parse_spenard_menu_item` (source lines 217-270): find the first currency
token (reject when none); split the stripped text on the matched token; the
piece before it, stripped of spaces and hyphens, is the name, the piece after
it (if any), likewise stripped, is the description (`spenardName0`,
`spenardDesc0`); apply the re-split rule (`spenardName1`, `spenardDesc1`);
strip both once more and reject candidates whose final name is empty. -/
def parse_spenard_menu_item (text : List Char) : Option MenuItem :=
  match searchPrice text with
  | none => none
  | some (_, price) =>
    if (pyStrip (spenardName1 text price)).isEmpty then none
    else some ⟨pyStrip (spenardName1 text price), price, pyStrip (spenardDesc1 text price)⟩

/-- Source line 81: `soup.find_all('div', class_=...)` with the
menu-or-item class test, in document order. -/
def menuDivs (soup : Forest) : List Elem :=
  (elemsOf soup).filter (fun e => e.tag == tagDiv && classTokenHasAny [kwMenu, kwItem] e.classes)

/-- Source line 84: `soup.find_all('section', class_=...)` with the
dish-or-food class test, in document order. -/
def dishSections (soup : Forest) : List Elem :=
  (elemsOf soup).filter
    (fun e => e.tag == tagSection && classTokenHasAny [kwDish, kwFood] e.classes)

/-- Source line 90: `potential_items = menu_divs + dish_sections`. -/
def potential_items (soup : Forest) : List Elem :=
  menuDivs soup ++ dishSections soup

/-- One iteration of the loop at source lines 94-105: a candidate block is
accepted exactly when the extracted name is truthy (present and nonempty)
and a price was found. -/
def structuralRecord (item : Elem) : Option MenuItem :=
  match extract_name item, extract_price item with
  | some n, some p => if n.isEmpty then none else some ⟨n, p, extract_description item⟩
  | _, _ => none

/-- Source lines 93-105: records accepted from the first 10 structural
candidates (the loop body is skipped entirely when there are none, which
coincides with mapping over the empty list). -/
def structuralItems (soup : Forest) : List MenuItem :=
  ((potential_items soup).take 10).filterMap structuralRecord

/-- Source lines 108-116: the raw-text fallback scan — every text node that
contains `'$'` and has nonempty stripped content is handed, stripped, to
`parse_menu_text`. -/
def textualItems (soup : Forest) : List MenuItem :=
  (textsOf soup).filterMap (fun t =>
    if t.contains '$' && !(pyStrip t).isEmpty then parse_menu_text (pyStrip t) else none)

/-- The generic `menu_items` list just before the placeholder check
(source lines 70-116): the structural stage, or the raw-text fallback when
the structural stage accepted nothing. -/
def genericPre (soup : Forest) : List MenuItem :=
  if (structuralItems soup).isEmpty then textualItems soup else structuralItems soup

/-- Source lines 118-126: the generic result with the placeholder guard. -/
def genericItems (soup : Forest) : List MenuItem :=
  if (genericPre soup).isEmpty then [sentinelItem] else genericPre soup

/-- Source line 189: `soup.find_all('div', class_=...)` with the
dish-or-menuitem class test — note only `div` is searched here. -/
def spenardDishEls (soup : Forest) : List Elem :=
  (elemsOf soup).filter (fun e => e.tag == tagDiv && classTokenHasAny [kwDish, kwMenuitem] e.classes)

/-- Source lines 193-195: the broadened scan — every `div`, `span` or `p`
whose text content is nonempty and contains `'$'`. -/
def spenardBroadEls (soup : Forest) : List Elem :=
  (elemsOf soup).filter (fun e =>
    (e.tag == tagDiv || e.tag == tagSpan || e.tag == tagP)
      && !(getText e).isEmpty && (getText e).contains '$')

/-- Source lines 189-195: the vendor candidate elements — the class-based
scan, broadened only when it found nothing. -/
def spenardElements (soup : Forest) : List Elem :=
  if (spenardDishEls soup).isEmpty then spenardBroadEls soup else spenardDishEls soup

/-- Source lines 198-204: parse each candidate element's stripped text when
it is nonempty and contains `'$'`. -/
def spenardStructItems (soup : Forest) : List MenuItem :=
  (spenardElements soup).filterMap (fun el =>
    if !(pyStrip (getText el)).isEmpty && (pyStrip (getText el)).contains '$' then
      parse_spenard_menu_item (pyStrip (getText el))
    else none)

/-- Source lines 207-213: the vendor raw-text fallback. -/
def spenardTextItems (soup : Forest) : List MenuItem :=
  (textsOf soup).filterMap (fun t =>
    if t.contains '$' && !(pyStrip t).isEmpty then parse_spenard_menu_item (pyStrip t) else none)

/-- `extract_spenard_menu_items` (source lines 173-215).  Note: no placeholder
guard here — the function can return the empty list. -/
def extract_spenard_menu_items (soup : Forest) : List MenuItem :=
  if (spenardStructItems soup).isEmpty then spenardTextItems soup else spenardStructItems soup

/-- The single registered vendor key (source line 73). -/
def vendorKey : List Char := "spenard roadhouse".toList

/-- `extract_menu_items` (source lines 58-126): the vendor branch returns the
vendor extractor's result directly — before the generic scans and before the
placeholder guard — whenever the lowercased restaurant name contains the
vendor key. -/
def extract_menu_items (soup : Forest) (restaurant_name : List Char) : List MenuItem :=
  if containsSub vendorKey (lowerL restaurant_name) then extract_spenard_menu_items soup
  else genericItems soup

/-- A restaurant record from the configuration store (source lines 21-22,
41-44). -/
structure Restaurant where
  name : List Char
  website : List Char
  cuisine : List Char
  menu_url : List Char
deriving DecidableEq

/-- The per-restaurant output record (source lines 40-46 and 49-56); the
success path carries no `error` key, modelled as `none`. -/
structure ScrapeResult where
  name : List Char
  website : List Char
  cuisine : List Char
  menu_url : List Char
  menu_items : List MenuItem
  error : Option (List Char)
deriving DecidableEq

/-- `scrape_restaurant_menu` (source lines 11-56), with the fetch-and-parse
layer abstracted into its outcome: a parsed document on success, the
exception text on failure.  On failure the result records the error and an
empty items list; no extraction runs. -/
def scrape_restaurant_menu (r : Restaurant) (fetched : Except (List Char) Forest) :
    ScrapeResult :=
  match fetched with
  | .ok soup =>
    ⟨r.name, r.website, r.cuisine, r.menu_url, extract_menu_items soup r.name, none⟩
  | .error e =>
    ⟨r.name, r.website, r.cuisine, r.menu_url, [], some e⟩

/-- `scrape_all_restaurants` (source lines 302-321), with each restaurant's
fetch outcome supplied alongside it: one result per input, in order. -/
def scrape_all (xs : List (Restaurant × Except (List Char) Forest)) : List ScrapeResult :=
  xs.map (fun p => scrape_restaurant_menu p.1 p.2)

/-- Modelled from the spec (§4.5 as read by claim C7): a preferred vendor
locator that searches ALL THREE families `div`, `span`, `p` for class tokens
containing "dish" or "menuitem".  Stated only to compare the specification's
words with the code's `spenardDishEls`, which searches `div` alone. -/
def spenardPreferredSpec (soup : Forest) : List Elem :=
  (elemsOf soup).filter (fun e =>
    (e.tag == tagDiv || e.tag == tagSpan || e.tag == tagP)
      && classTokenHasAny [kwDish, kwMenuitem] e.classes)

/-- A one-text-node document whose fragment carries a one-decimal price. -/
def docOneDecimal : Forest := .textN ("Soup $5.5".toList) .nil

/-- A one-text-node document whose fragment is a bare price with no name. -/
def docBarePrice : Forest := .textN ("$5.00".toList) .nil

/-- The Example-3 textual fragment: a name with an embedded `" - "`, a price,
and nothing after the price. -/
def nachosFrag : List Char := "Nachos - loaded with cheese$8.00".toList

/-- A document with one structural candidate (a `menu`-classed div whose text
has no price, so the candidate is rejected) and a separate price-bearing
text node reachable only by the raw-text fallback. -/
def docRejectedBlock : Forest :=
  .elemN tagDiv [kwMenu] (.textN ("hello".toList) .nil) (.textN ("Taco $3".toList) .nil)

/-- A document with a class-less `div` and a `dish`-classed `span`, both with
price-bearing text. -/
def docSpanDish : Forest :=
  .elemN tagDiv [] (.textN ("B $2".toList) .nil)
    (.elemN tagSpan [kwDish] (.textN ("A $1".toList) .nil) .nil)

/-- A restaurant resolved to the vendor strategy. -/
def spenardRS : Restaurant :=
  ⟨"Spenard Roadhouse".toList, "sr.example".toList, "american".toList, "sr.example/menu".toList⟩

/-! ### Helper lemmas -/

theorem takeWhile_all_eq_self {p : Char → Bool} {l : List Char} (h : l.all p = true) :
    l.takeWhile p = l :=
  List.takeWhile_eq_self_iff.mpr (List.all_eq_true.mp h)

theorem all_takeWhile (p : Char → Bool) (l : List Char) : (l.takeWhile p).all p = true :=
  List.all_eq_true.mpr (fun _ hx => List.mem_takeWhile_imp hx)

theorem takeWhile_append_stop {p : Char → Bool} {l : List Char} {d : Char} (fs : List Char)
    (hl : l.all p = true) (hd : p d = false) :
    (l ++ d :: fs).takeWhile p = l := by
  induction l with
  | nil => simp [List.takeWhile_cons, hd]
  | cons a t ih =>
    rw [List.all_cons, Bool.and_eq_true] at hl
    simp [List.takeWhile_cons, hl.1, ih hl.2]

theorem isCurrencyTokenCode_int {ds : List Char} (h1 : ds.all Char.isDigit = true)
    (h2 : ds.isEmpty = false) : isCurrencyTokenCode ('$' :: ds) = true := by
  simp only [isCurrencyTokenCode]
  rw [takeWhile_all_eq_self h1, List.drop_length]
  simp [h2]

theorem isCurrencyTokenCode_frac {ds fs : List Char} (h1 : ds.all Char.isDigit = true)
    (h2 : ds.isEmpty = false) (h3 : fs.all Char.isDigit = true) (h4 : fs.isEmpty = false) :
    isCurrencyTokenCode ('$' :: (ds ++ '.' :: fs)) = true := by
  simp only [isCurrencyTokenCode]
  rw [takeWhile_append_stop fs h1 (by decide), List.drop_left]
  simp [h2, h3, h4]

theorem matchPriceAt_grammar : ∀ {s m : List Char}, matchPriceAt s = some m →
    isCurrencyTokenCode m = true := by
  intro s m h
  unfold matchPriceAt at h
  split at h
  · exact absurd h (by simp)
  next c rest =>
    split at h
    next hc =>
      subst hc
      split at h
      next hds => exact absurd h (by simp)
      next hds =>
        split at h
        next d r3 hdrop =>
          split at h
          next hd =>
            subst hd
            split at h
            next hfs =>
              cases h
              exact isCurrencyTokenCode_int (all_takeWhile _ _)
                (Bool.eq_false_iff.mpr hds)
            next hfs =>
              cases h
              exact isCurrencyTokenCode_frac (all_takeWhile _ _)
                (Bool.eq_false_iff.mpr hds) (all_takeWhile _ _)
                (Bool.eq_false_iff.mpr hfs)
          next hd =>
            cases h
            exact isCurrencyTokenCode_int (all_takeWhile _ _) (Bool.eq_false_iff.mpr hds)
        next hdrop =>
          cases h
          exact isCurrencyTokenCode_int (all_takeWhile _ _) (Bool.eq_false_iff.mpr hds)
    next hc => exact absurd h (by simp)

theorem searchPriceAux_grammar : ∀ (s : List Char) (i j : Nat) (m : List Char),
    searchPriceAux s i = some (j, m) → isCurrencyTokenCode m = true := by
  intro s
  induction s with
  | nil => intro i j m h; simp [searchPriceAux] at h
  | cons c rest ih =>
    intro i j m h
    rw [searchPriceAux] at h
    cases hm : matchPriceAt (c :: rest) with
    | some m0 =>
      rw [hm] at h
      cases h
      exact matchPriceAt_grammar hm
    | none =>
      rw [hm] at h
      exact ih (i + 1) j m h

theorem searchPrice_grammar {s : List Char} {j : Nat} {m : List Char}
    (h : searchPrice s = some (j, m)) : isCurrencyTokenCode m = true :=
  searchPriceAux_grammar s 0 j m h

theorem priceScan_grammar : ∀ (ts : List (List Char)) (m : List Char),
    priceScan ts = some m → isCurrencyTokenCode m = true := by
  intro ts
  induction ts with
  | nil => intro m h; simp [priceScan] at h
  | cons t rest ih =>
    intro m h
    rw [priceScan] at h
    split at h
    · cases hm : searchPrice t with
      | some im =>
        rw [hm] at h
        cases h
        exact searchPrice_grammar hm
      | none =>
        rw [hm] at h
        exact ih m h
    · exact ih m h

theorem extract_price_grammar {item : Elem} {p : List Char}
    (h : extract_price item = some p) : isCurrencyTokenCode p = true :=
  priceScan_grammar _ p h

theorem parse_menu_text_grammar {t : List Char} {r : MenuItem}
    (h : parse_menu_text t = some r) : isCurrencyTokenCode r.price = true := by
  unfold parse_menu_text at h
  split at h
  · exact absurd h (by simp)
  next start price hsp =>
    split at h
    next g1 hg1 =>
      cases h
      exact searchPrice_grammar hsp
    next hg1 => exact absurd h (by simp)

theorem parse_spenard_grammar {t : List Char} {r : MenuItem}
    (h : parse_spenard_menu_item t = some r) : isCurrencyTokenCode r.price = true := by
  unfold parse_spenard_menu_item at h
  split at h
  · exact absurd h (by simp)
  next idx price hsp =>
    split at h
    · exact absurd h (by simp)
    · cases h
      exact searchPrice_grammar hsp

theorem structuralRecord_grammar {e : Elem} {r : MenuItem}
    (h : structuralRecord e = some r) : isCurrencyTokenCode r.price = true := by
  unfold structuralRecord at h
  split at h
  next n p hn hp =>
    split at h
    · exact absurd h (by simp)
    · cases h
      exact extract_price_grammar hp
  next => exact absurd h (by simp)

theorem textualItems_grammar {soup : Forest} {r : MenuItem} (h : r ∈ textualItems soup) :
    isCurrencyTokenCode r.price = true := by
  rw [textualItems, List.mem_filterMap] at h
  obtain ⟨t, -, ht⟩ := h
  split at ht
  · exact parse_menu_text_grammar ht
  · exact absurd ht (by simp)

theorem structuralItems_grammar {soup : Forest} {r : MenuItem} (h : r ∈ structuralItems soup) :
    isCurrencyTokenCode r.price = true := by
  rw [structuralItems, List.mem_filterMap] at h
  obtain ⟨e, -, he⟩ := h
  exact structuralRecord_grammar he

theorem spenardStructItems_grammar {soup : Forest} {r : MenuItem}
    (h : r ∈ spenardStructItems soup) : isCurrencyTokenCode r.price = true := by
  rw [spenardStructItems, List.mem_filterMap] at h
  obtain ⟨e, -, he⟩ := h
  split at he
  · exact parse_spenard_grammar he
  · exact absurd he (by simp)

theorem spenardTextItems_grammar {soup : Forest} {r : MenuItem}
    (h : r ∈ spenardTextItems soup) : isCurrencyTokenCode r.price = true := by
  rw [spenardTextItems, List.mem_filterMap] at h
  obtain ⟨t, -, ht⟩ := h
  split at ht
  · exact parse_spenard_grammar ht
  · exact absurd ht (by simp)

theorem extract_spenard_grammar {soup : Forest} {r : MenuItem}
    (h : r ∈ extract_spenard_menu_items soup) : isCurrencyTokenCode r.price = true := by
  rw [extract_spenard_menu_items] at h
  split at h
  · exact spenardTextItems_grammar h
  · exact spenardStructItems_grammar h

theorem genericItems_grammar {soup : Forest} {r : MenuItem} (h : r ∈ genericItems soup) :
    isCurrencyTokenCode r.price = true := by
  rw [genericItems] at h
  split at h
  · rw [List.mem_singleton] at h
    subst h
    decide
  · rw [genericPre] at h
    split at h
    · exact textualItems_grammar h
    · exact structuralItems_grammar h

/-! ### Substring and case-folding lemmas -/

theorem containsSub_iff_infix {needle hay : List Char} :
    containsSub needle hay = true ↔ needle <:+: hay := by
  induction hay with
  | nil => simp [containsSub, List.isEmpty_iff]
  | cons c rest ih =>
    rw [containsSub, Bool.or_eq_true, List.isPrefixOf_iff_prefix, ih, List.infix_cons_iff]

theorem infix_lower_iff {key name : List Char} :
    key <:+: lowerL name ↔ ∃ s, s <:+: name ∧ lowerL s = key := by
  unfold lowerL
  constructor
  · rintro ⟨p, q, hpq⟩
    have h1 : name.map Char.toLower = p ++ (key ++ q) := by
      rw [← hpq, List.append_assoc]
    obtain ⟨a, b, hab, -, hb⟩ := List.map_eq_append_iff.mp h1
    obtain ⟨c, d, hcd, hkc, -⟩ := List.map_eq_append_iff.mp hb
    refine ⟨c, ?_, hkc⟩
    rw [hab, hcd, ← List.append_assoc]
    exact List.infix_append a c d
  · rintro ⟨s, hs, rfl⟩
    exact List.IsInfix.map Char.toLower hs

theorem vendorMatch_iff {name : List Char} :
    containsSub vendorKey (lowerL name) = true ↔ ∃ s, s <:+: name ∧ lowerL s = vendorKey :=
  containsSub_iff_infix.trans infix_lower_iff

/-! ### Claim theorems -/

/-- C1 (counterexample): a restaurant resolved to the vendor strategy,
fetched successfully, whose document contains no `'$'` at all, yields an
EMPTY items list with no error set and no sentinel — the vendor branch
returns before the placeholder guard (source line 74 versus lines 118-124). -/
theorem c1_counterexample :
    (scrape_restaurant_menu spenardRS (Except.ok Forest.nil)).error = none
      ∧ (scrape_restaurant_menu spenardRS (Except.ok Forest.nil)).menu_items = [] := by
  constructor
  · rfl
  · decide

/-- C1 (amended): for every restaurant resolved to the GENERIC strategy and
processed without a fetch-layer error, the result is nonempty, and whenever
zero records were accepted after the structural and textual stages exactly
the one sentinel record is returned.  (The vendor strategy skips the
placeholder guard and can return an empty list.) -/
theorem c1_generic_guard (soup : Forest) (name : List Char)
    (h : containsSub vendorKey (lowerL name) = false) :
    extract_menu_items soup name ≠ []
      ∧ (structuralItems soup = [] → textualItems soup = [] →
          extract_menu_items soup name = [sentinelItem]) := by
  have hbr : extract_menu_items soup name = genericItems soup := by
    rw [extract_menu_items, if_neg]
    simp [h]
  constructor
  · rw [hbr, genericItems]
    split
    · simp
    next hpre =>
      intro hcon
      rw [hcon] at hpre
      simp at hpre
  · intro hs ht
    have hpre : genericPre soup = [] := by
      rw [genericPre, hs, ht]
      rfl
    rw [hbr, genericItems, hpre]
    rfl

/-- C1 (witness): on the empty document with a generic restaurant name, the
pipeline returns exactly the sentinel, hence a nonempty list. -/
theorem c1_witness :
    extract_menu_items Forest.nil ("x".toList) ≠ []
      ∧ extract_menu_items Forest.nil ("x".toList) = [sentinelItem] := by
  have h := c1_generic_guard Forest.nil ("x".toList) (by decide)
  exact ⟨h.1, h.2 (by decide) (by decide)⟩

/-- C8 (confirmed): strategy resolution is a case-insensitive substring match
of the restaurant name against the vendor key — any name containing the key
as a case-insensitive substring selects the vendor extractor, and any other
name selects the generic pipeline. -/
theorem c8_strategy_resolution (soup : Forest) (name : List Char) :
    ((∃ s, s <:+: name ∧ lowerL s = vendorKey) →
        extract_menu_items soup name = extract_spenard_menu_items soup)
      ∧ ((¬ ∃ s, s <:+: name ∧ lowerL s = vendorKey) →
        extract_menu_items soup name = genericItems soup) := by
  constructor
  · intro hv
    rw [extract_menu_items, if_pos (vendorMatch_iff.mpr hv)]
  · intro hv
    rw [extract_menu_items, if_neg]
    intro hc
    exact hv (vendorMatch_iff.mp hc)

/-- C8 (witness): the name "Spenard Roadhouse Downtown" contains the vendor
key despite extra trailing words and different capitalisation, so the vendor
strategy is selected. -/
theorem c8_witness :
    extract_menu_items Forest.nil ("Spenard Roadhouse Downtown".toList)
      = extract_spenard_menu_items Forest.nil :=
  (c8_strategy_resolution Forest.nil ("Spenard Roadhouse Downtown".toList)).1
    ⟨"Spenard Roadhouse".toList, by decide, by decide⟩

/-- C9 (confirmed): a fetch failure yields a result carrying the source
fields, the failure text in `error` and an EMPTY items list (no extraction,
no placeholder), and in a whole run the failure leaves every other
restaurant's result exactly what its own input produces. -/
theorem c9_fetch_error (r : Restaurant) (e : List Char)
    (xs ys : List (Restaurant × Except (List Char) Forest)) :
    scrape_restaurant_menu r (Except.error e)
        = ⟨r.name, r.website, r.cuisine, r.menu_url, [], some e⟩
      ∧ scrape_all (xs ++ (r, Except.error e) :: ys)
        = scrape_all xs ++ scrape_restaurant_menu r (Except.error e) :: scrape_all ys := by
  refine ⟨rfl, ?_⟩
  simp [scrape_all]

/-- C10 (confirmed): on both the success and the error path the result
carries the input's name, website, cuisine and menu URL unchanged. -/
theorem c10_frame (r : Restaurant) (fetched : Except (List Char) Forest) :
    (scrape_restaurant_menu r fetched).name = r.name
      ∧ (scrape_restaurant_menu r fetched).website = r.website
      ∧ (scrape_restaurant_menu r fetched).cuisine = r.cuisine
      ∧ (scrape_restaurant_menu r fetched).menu_url = r.menu_url := by
  cases fetched <;> exact ⟨rfl, rfl, rfl, rfl⟩

/-- C2 (counterexample): the textual path accepts the one-decimal price
"$5.5", which violates the spec grammar `$` digit+ (`.` digit digit)?; the
produced record is not the sentinel. -/
theorem c2_counterexample :
    extract_menu_items docOneDecimal ("x".toList)
        = [⟨"Soup".toList, "$5.5".toList, []⟩]
      ∧ isCurrencyTokenSpec ("$5.5".toList) = false
      ∧ (⟨"Soup".toList, "$5.5".toList, []⟩ : MenuItem) ≠ sentinelItem := by
  refine ⟨by decide, by decide, by decide⟩

/-- C2 (amended): every record produced by any extraction path — structural,
textual or vendor, sentinel included — has a price matching the grammar the
code's regex actually enforces, `$` digit+ (`.` digit+)?: the optional
fraction has one or MORE digits, not exactly two. -/
theorem c2_price_grammar (soup : Forest) (name : List Char) (r : MenuItem)
    (h : r ∈ extract_menu_items soup name) : isCurrencyTokenCode r.price = true := by
  rw [extract_menu_items] at h
  split at h
  · exact extract_spenard_grammar h
  · exact genericItems_grammar h

/-- C2 (witness): the record extracted from the one-decimal document does
satisfy the code's grammar. -/
theorem c2_witness :
    isCurrencyTokenCode (MenuItem.price ⟨"Soup".toList, "$5.5".toList, []⟩) = true :=
  c2_price_grammar docOneDecimal ("x".toList) ⟨"Soup".toList, "$5.5".toList, []⟩ (by decide)

/-- C3 (counterexample): the generic text-fallback parser accepts the bare
price "$5.00" and the pipeline records an item whose name is EMPTY —
`parse_menu_text` has no empty-name rejection. -/
theorem c3_counterexample :
    extract_menu_items docBarePrice ("x".toList) = [⟨[], "$5.00".toList, []⟩]
      ∧ (⟨[], "$5.00".toList, []⟩ : MenuItem).name = [] := by
  refine ⟨by decide, rfl⟩

/-- C3 (amended): only the VENDOR text parser rejects candidates whose final
trimmed name is empty — every record it produces has a nonempty name.  (The
generic text fallback performs no such check and can accept an empty name.) -/
theorem c3_vendor_rejects_empty_name (t : List Char) {r : MenuItem}
    (h : parse_spenard_menu_item t = some r) : r.name ≠ [] := by
  unfold parse_spenard_menu_item at h
  split at h
  · exact absurd h (by simp)
  next idx price hsp =>
    split at h
    next hempty => exact absurd h (by simp)
    next hempty =>
      cases h
      simpa [List.isEmpty_iff] using hempty

/-- C3 (witness): the vendor parser's output on the Example-3 fragment has a
nonempty name. -/
theorem c3_witness :
    (MenuItem.mk ("Nachos".toList) ("$8.00".toList) ("loaded with cheese".toList)).name ≠ [] :=
  c3_vendor_rejects_empty_name nachosFrag (by decide)

/-- C4 (counterexample): the generic text-fallback parser, also a
textual-mode path, does NOT re-split — on the Example-3 fragment it returns
the whole pre-price text as the name, with an empty description, even though
the name contains `" - "`. -/
theorem c4_counterexample :
    parse_menu_text nachosFrag
        = some ⟨"Nachos - loaded with cheese".toList, "$8.00".toList, []⟩
      ∧ containsSub sepDash ("Nachos - loaded with cheese".toList) = true
      ∧ ("Nachos - loaded with cheese".toList : List Char) ≠ "Nachos".toList := by
  refine ⟨by decide, by decide, by decide⟩

/-- C4 (amended): in the VENDOR text parser, when the derived description is
empty and the derived name contains `" - "`, the name is re-split at the
separator — first piece becomes the name, rejoined rest becomes the
description — and the rule fires only then; the accepted record exposes
exactly these values, and the Example-3 fragment yields name "Nachos",
description "loaded with cheese". -/
theorem c4_resplit_rule (text price : List Char) (idx : Nat)
    (hsp : searchPrice text = some (idx, price)) :
    (spenardDesc0 text price = [] → containsSub sepDash (spenardName0 text price) = true →
        spenardName1 text price
            = pyStrip ((splitOnSub sepDash (spenardName0 text price)).headD [])
          ∧ spenardDesc1 text price
            = (if 1 < (splitOnSub sepDash (spenardName0 text price)).length then
                pyStrip (List.intercalate sepDash
                  ((splitOnSub sepDash (spenardName0 text price)).drop 1))
              else []))
      ∧ (spenardDesc0 text price ≠ [] →
          spenardName1 text price = spenardName0 text price
            ∧ spenardDesc1 text price = spenardDesc0 text price)
      ∧ ((pyStrip (spenardName1 text price)).isEmpty = false →
          parse_spenard_menu_item text
            = some ⟨pyStrip (spenardName1 text price), price, pyStrip (spenardDesc1 text price)⟩)
      ∧ parse_spenard_menu_item nachosFrag
          = some ⟨"Nachos".toList, "$8.00".toList, "loaded with cheese".toList⟩ := by
  refine ⟨?_, ?_, ?_, by decide⟩
  · intro hd hn
    have hc : ((spenardDesc0 text price).isEmpty
        && containsSub sepDash (spenardName0 text price)) = true := by
      simp [hd, hn]
    constructor
    · rw [spenardName1, if_pos hc]
    · rw [spenardDesc1, if_pos hc, hd]
  · intro hd
    have hc : ¬ (((spenardDesc0 text price).isEmpty
        && containsSub sepDash (spenardName0 text price)) = true) := by
      simp [List.isEmpty_iff, hd]
    exact ⟨by rw [spenardName1, if_neg hc], by rw [spenardDesc1, if_neg hc]⟩
  · intro hne
    rw [parse_spenard_menu_item, hsp]
    simp [hne]

/-- C4 (witness): the re-split rule applied on the Example-3 fragment
produces name "Nachos" and description "loaded with cheese". -/
theorem c4_witness :
    spenardName1 nachosFrag ("$8.00".toList) = "Nachos".toList
      ∧ spenardDesc1 nachosFrag ("$8.00".toList) = "loaded with cheese".toList := by
  have h := (c4_resplit_rule nachosFrag ("$8.00".toList) 27 (by decide)).1
    (by decide) (by decide)
  refine ⟨?_, ?_⟩
  · rw [h.1]; decide
  · rw [h.2]; decide

/-- C5 (counterexample): a document whose structural locator DID return a
candidate (a `menu`-classed div) — but the candidate is rejected for lack of
a price, so zero records are accepted and the raw-text fallback runs anyway,
producing the record of an unrelated text node. -/
theorem c5_counterexample :
    potential_items docRejectedBlock ≠ []
      ∧ structuralItems docRejectedBlock = []
      ∧ textualItems docRejectedBlock = [⟨"Taco".toList, "$3".toList, []⟩]
      ∧ extract_menu_items docRejectedBlock ("x".toList)
        = [⟨"Taco".toList, "$3".toList, []⟩] := by
  refine ⟨by decide, by decide, by decide, by decide⟩

/-- C5 (amended): in the generic strategy the raw-text fallback feeds the
result exactly when the structural stage ACCEPTED zero records — in
particular whenever the locator returned zero candidate blocks — and never
when some structural record was accepted. -/
theorem c5_fallback_condition (soup : Forest) :
    (potential_items soup = [] → genericPre soup = textualItems soup)
      ∧ (structuralItems soup = [] → genericPre soup = textualItems soup)
      ∧ (structuralItems soup ≠ [] → genericPre soup = structuralItems soup) := by
  refine ⟨?_, ?_, ?_⟩
  · intro hp
    have hs : structuralItems soup = [] := by
      rw [structuralItems, hp]
      rfl
    rw [genericPre, hs]
    rfl
  · intro hs
    rw [genericPre, hs]
    rfl
  · intro hs
    rw [genericPre, if_neg]
    simp [List.isEmpty_iff, hs]

/-- C5 (witness): on the counterexample document the structural stage is
empty, so the pre-guard result is the raw-text fallback's output. -/
theorem c5_witness : genericPre docRejectedBlock = textualItems docRejectedBlock :=
  (c5_fallback_condition docRejectedBlock).2.1 (by decide)

/-- C6 (confirmed): the generic structural locator is scan A (divs whose
class tokens contain, case-insensitively, "menu" or "item") concatenated
before scan B (sections whose class tokens contain "dish" or "food"), each
scan a document-order filter of the element preorder, and field extraction
runs on at most the first 10 of the concatenation. -/
theorem c6_generic_locator (soup : Forest) :
    potential_items soup = menuDivs soup ++ dishSections soup
      ∧ (∀ e : Elem, e ∈ menuDivs soup ↔ e ∈ elemsOf soup ∧ e.tag = tagDiv
          ∧ ∃ cl ∈ e.classes,
              containsSub kwMenu (lowerL cl) = true ∨ containsSub kwItem (lowerL cl) = true)
      ∧ (∀ e : Elem, e ∈ dishSections soup ↔ e ∈ elemsOf soup ∧ e.tag = tagSection
          ∧ ∃ cl ∈ e.classes,
              containsSub kwDish (lowerL cl) = true ∨ containsSub kwFood (lowerL cl) = true)
      ∧ structuralItems soup = ((potential_items soup).take 10).filterMap structuralRecord
      ∧ ((potential_items soup).take 10).length ≤ 10 := by
  refine ⟨rfl, ?_, ?_, rfl, List.length_take_le 10 _⟩
  · intro e
    simp [menuDivs, List.mem_filter, classTokenHasAny, List.any_eq_true, and_assoc]
  · intro e
    simp [dishSections, List.mem_filter, classTokenHasAny, List.any_eq_true, and_assoc]

/-- C7 (counterexample): with a `dish`-classed SPAN and a class-less div both
carrying prices, the claim's preferred locator (families div, span, p) would
be nonempty and suppress broadening, yet the code's preferred scan — divs
only — is empty, the broadened scan runs, and the class-less div's record is
produced first. -/
theorem c7_counterexample :
    spenardDishEls docSpanDish = []
      ∧ (spenardPreferredSpec docSpanDish).map Elem.tag = [tagSpan]
      ∧ extract_spenard_menu_items docSpanDish
        = [⟨"B".toList, "$2".toList, []⟩, ⟨"A".toList, "$1".toList, []⟩] := by
  refine ⟨by decide, by decide, by decide⟩

/-- C7 (amended): the vendor preferred locator searches ONLY `div` elements
for class tokens containing "dish" or "menuitem"; exactly when that scan is
empty, the candidate set broadens to every `div`, `span` or `p` whose text
content is nonempty and contains `'$'`, in document order. -/
theorem c7_vendor_locator (soup : Forest) :
    (∀ e ∈ spenardDishEls soup, e.tag = tagDiv)
      ∧ (spenardDishEls soup = [] → spenardElements soup = spenardBroadEls soup)
      ∧ (spenardDishEls soup ≠ [] → spenardElements soup = spenardDishEls soup)
      ∧ (∀ e : Elem, e ∈ spenardBroadEls soup ↔ e ∈ elemsOf soup
          ∧ (e.tag = tagDiv ∨ e.tag = tagSpan ∨ e.tag = tagP)
          ∧ getText e ≠ [] ∧ (getText e).contains '$' = true) := by
  refine ⟨?_, ?_, ?_, ?_⟩
  · intro e he
    rw [spenardDishEls, List.mem_filter] at he
    have h2 := he.2
    rw [Bool.and_eq_true] at h2
    exact beq_iff_eq.mp h2.1
  · intro hd
    rw [spenardElements, hd]
    rfl
  · intro hd
    rw [spenardElements, if_neg]
    simp [List.isEmpty_iff, hd]
  · intro e
    simp [spenardBroadEls, List.mem_filter, List.isEmpty_iff, and_assoc, or_assoc]

/-- C7 (witness): on the counterexample document the class scan is empty and
the candidate set is the broadened scan. -/
theorem c7_witness : spenardElements docSpanDish = spenardBroadEls docSpanDish :=
  (c7_vendor_locator docSpanDish).2.1 (by decide)
